import Mathlib

/-!
Shallow embedding of the blueboat `Server` class (src/server/Server.ts):
the room-type registry (`registerRoom`), the managed-room bookkeeping
(`onRoomMade` / `onRoomDisposed`), the cross-process pub/sub bridge
(`spawnPubSub`), and the drain-on-shutdown routine (`shutdown` /
`gracefullyShutdown`).  Pure data is carried over directly; the JS
asynchrony (promises, `Promise.all`, `async`/`try`/`finally`) is embedded
as explicit outcome values.
-/

namespace Blueboat

/- ## Room type registry -/

/-- Mirrors the `AvaiableRoomType` entries held in
`ServerState.availableRoomTypes`: a room type name together with its
handler (of arbitrary type, `any` in the source) and its optional
options value. -/
structure AvaiableRoomType (H : Type) (O : Type) where
  name : String
  handler : H
  options : Option O
deriving DecidableEq, Repr

/-- `Server.registerRoom(roomName, handler, options)`: if
`availableRoomTypes.map(room => room.name).includes(roomName)` the call
returns without touching the state; otherwise the new entry is pushed at
the end of `availableRoomTypes`. -/
def registerRoom {H O : Type} (st : List (AvaiableRoomType H O))
    (roomName : String) (handler : H) (options : Option O) :
    List (AvaiableRoomType H O) :=
  if (st.map (fun room => room.name)).contains roomName then
    st
  else
    st ++ [⟨roomName, handler, options⟩]

/-- One `registerRoom` call, as data: name, handler, options. -/
structure RegisterCall (H : Type) (O : Type) where
  name : String
  handler : H
  options : Option O
deriving DecidableEq, Repr

/-- Apply a sequence of `registerRoom` calls to a registry state, in order. -/
def applyRegisterCalls {H O : Type} (st : List (AvaiableRoomType H O))
    (calls : List (RegisterCall H O)) : List (AvaiableRoomType H O) :=
  calls.foldl (fun s c => registerRoom s c.name c.handler c.options) st

/-- The descriptor a `RegisterCall` would install. -/
def RegisterCall.toDescriptor {H O : Type} (c : RegisterCall H O) :
    AvaiableRoomType H O :=
  ⟨c.name, c.handler, c.options⟩

/- ## Managed room set -/

/-- Mirrors the `Room` instances held in `ServerState.managingRooms`.
The `Server` code only reads a room's `roomId`; the rest of the room
instance is opaque payload of type `α`. -/
structure Room (α : Type) where
  roomId : String
  payload : α
deriving DecidableEq, Repr

/-- The two parallel collections of `ServerState` mutated by
`onRoomMade` / `onRoomDisposed`: `managingRooms` and `managingRoomIds`. -/
structure ManagedState (α : Type) where
  managingRooms : List (Room α)
  managingRoomIds : List String
deriving DecidableEq, Repr

/-- The initial `ServerState`: both collections empty. -/
def emptyManaged (α : Type) : ManagedState α := ⟨[], []⟩

/-- `Server.onRoomMade(room)`: pushes `room` onto `managingRooms` and
`room.roomId` onto `managingRoomIds`. -/
def onRoomMade {α : Type} (st : ManagedState α) (room : Room α) :
    ManagedState α :=
  { managingRooms := st.managingRooms ++ [room],
    managingRoomIds := st.managingRoomIds ++ [room.roomId] }

/-- `Server.onRoomDisposed(roomId)`: filters `roomId` out of both
`managingRooms` (by `room.roomId !== roomId`) and `managingRoomIds`
(by `r !== roomId`). -/
def onRoomDisposed {α : Type} (st : ManagedState α) (roomId : String) :
    ManagedState α :=
  { managingRooms := st.managingRooms.filter (fun room => room.roomId != roomId),
    managingRoomIds := st.managingRoomIds.filter (fun r => r != roomId) }

/-- A call to one of the two `ManagedState` mutators. -/
inductive RoomEvent (α : Type) where
  | made (room : Room α)
  | disposed (roomId : String)
deriving DecidableEq, Repr

/-- Dispatch one mutator call. -/
def applyRoomEvent {α : Type} (st : ManagedState α) : RoomEvent α → ManagedState α
  | .made room => onRoomMade st room
  | .disposed roomId => onRoomDisposed st roomId

/-- Apply a sequence of mutator calls in order. -/
def applyRoomEvents {α : Type} (st : ManagedState α)
    (evs : List (RoomEvent α)) : ManagedState α :=
  evs.foldl applyRoomEvent st

/-- The precondition of claim C5 on a call sequence: `onRoomMade` is
called at most once per distinct roomId while that id is live, i.e. each
`made` event's id is not currently in `managingRoomIds`. -/
def validRoomEvents {α : Type} (st : ManagedState α) : List (RoomEvent α) → Bool
  | [] => true
  | ev :: evs =>
    (match ev with
      | .made room => !(st.managingRoomIds.contains room.roomId)
      | .disposed _ => true)
    && validRoomEvents (applyRoomEvent st ev) evs

/-- The bookkeeping invariant: the id list is exactly the rooms' ids, in
order, and the ids are pairwise distinct. -/
def managedConsistent {α : Type} (st : ManagedState α) : Prop :=
  st.managingRoomIds = st.managingRooms.map (fun room => room.roomId)
  ∧ st.managingRoomIds.Nodup

/-- The consistency property claim C5 states: every id in
`managingRoomIds` has exactly one instance in `managingRooms` carrying
it, and every instance's id is in `managingRoomIds`. -/
def exactCorrespondence {α : Type} (st : ManagedState α) : Prop :=
  (∀ roomId ∈ st.managingRoomIds,
     st.managingRooms.countP (fun room => room.roomId == roomId) = 1)
  ∧ (∀ room ∈ st.managingRooms, room.roomId ∈ st.managingRoomIds)

/- ## Cross-process event bridge (`spawnPubSub`) -/

/-- Modelled from the spec: `SimpleClient` (its file is outside the given
source) is the identity of a connected participant, `\x7b playerId: string,
connectionHandle \x7d`; the bridge merely repackages it, so the connection
handle is elided. -/
structure SimpleClient where
  playerId : String
deriving DecidableEq, Repr

/-- The decoded shape of a room-message envelope, as the handler reads it:
`\x7b client, room, action, data? \x7d`. `room` is `Option String` so that a
JSON `null`/absent field (`none`) is distinguished from the empty string
(`some ""`); both are falsy in the guard. `data` is opaque and optional. -/
structure Envelope where
  client : SimpleClient
  room : Option String
  action : String
  data : Option String
deriving DecidableEq, Repr

/-- JavaScript truthiness of the `room` field: `null`/absent and the empty
string are falsy. -/
def roomTruthy : Option String → Bool
  | none => false
  | some r => r != ""

/-- The payload `Emitter.emit` receives on the room channel:
`JSON.stringify(\x7b client: data.client, action: data.action, data: data.data \x7d)`,
kept structured rather than re-serialized. -/
structure EmitPayload where
  client : SimpleClient
  action : String
  data : Option String
deriving DecidableEq, Repr

/-- One `Emitter.emit` call made by the bridge handlers: either the
fixed `PLAYER_LEFT` key carrying a bare player id, or a room-id key
carrying a repackaged envelope payload. -/
inductive LocalEmit where
  | playerLeft (playerId : String)
  | room (roomId : String) (payload : EmitPayload)
deriving DecidableEq, Repr

/-- Body of the `InternalActions.newRoomMessage` handler after a
successful `JSON.parse`: emit on `data.room` iff
`data.room && this.state.managingRoomIds.includes(data.room)`, with the
repackaged `\x7b client, action, data \x7d`; otherwise no emit. -/
def roomEmit (managingRoomIds : List String) (env : Envelope) :
    Option LocalEmit :=
  match env.room with
  | none => none
  | some r =>
    if r != "" && managingRoomIds.contains r then
      some (.room r ⟨env.client, env.action, env.data⟩)
    else
      none

/-- A message arriving from the broker on one of the two subscribed
channels. For the room-message channel the raw string payload is
represented by the outcome of `JSON.parse` on it: `.error` stands for the
`SyntaxError` the parse throws on an undecodable payload. -/
inductive BrokerMsg where
  | playerLeft (playerId : String)
  | newRoomMessage (parsed : Except String Envelope)
deriving Repr

/-- The two subscription callbacks installed by `Server.spawnPubSub`,
as a single dispatch on the channel. The `PLAYER_LEFT` callback
unconditionally re-emits the player id. The `newRoomMessage` callback
runs `JSON.parse` with no try/catch, so a parse failure propagates out
of the handler as an exception (`.error`); on success it performs the
guarded `roomEmit`. The handler never touches any state. -/
def bridgeHandle (managingRoomIds : List String) :
    BrokerMsg → Except String (Option LocalEmit)
  | .playerLeft playerId => .ok (some (.playerLeft playerId))
  | .newRoomMessage parsed =>
    match parsed with
    | .error e => .error e
    | .ok env => .ok (roomEmit managingRoomIds env)

/- ## Shutdown (`shutdown` / `gracefullyShutdown`) -/

/-- The settlement behavior of one room's `dispose()` promise: it
fulfills, rejects, or never settles. -/
inductive DisposeBehavior where
  | resolves
  | rejects
  | hangs
deriving DecidableEq, Repr

/-- Whether `await Promise.all(rooms.map(room => room.dispose()))` ever
settles: `Promise.all` rejects as soon as any input rejects, and
fulfills once all inputs fulfill; with no rejection and at least one
never-settling input it stays pending forever. -/
def promiseAllSettles (rooms : List DisposeBehavior) : Bool :=
  rooms.contains .rejects || rooms.all (fun r => r == .resolves)

/-- How a run of `Server.shutdown` ends. -/
inductive ShutdownOutcome where
  | exit0
  | neverReturns
deriving DecidableEq, Repr

/-- The observable effects of one run of `Server.shutdown`. -/
structure ShutdownRun where
  disposalsInvoked : Nat
  serverClosed : Bool
  outcome : ShutdownOutcome
deriving DecidableEq, Repr

/-- `Server.shutdown` over the settlement behaviors of the managed
rooms' disposal hooks.
`try \x7b if (!managingRooms.length) return;
await Promise.all(managingRooms.map(room => room.dispose())) \x7d
catch (e) \x7b return \x7d finally \x7b server.close(); process.exit(0) \x7d`.
With no rooms, the early return still runs the `finally` block: no
disposal is invoked, the server closes, exit code 0.  Otherwise
`map` invokes every room's `dispose()` once, then the `await` either
settles (fulfillment, or a rejection caught by the `catch`) and the
`finally` closes the server and exits with code 0, or — when some
disposal never settles and none rejects — blocks forever, so the
`finally` never runs. -/
def shutdown (rooms : List DisposeBehavior) : ShutdownRun :=
  if rooms.length = 0 then
    { disposalsInvoked := 0, serverClosed := true, outcome := .exit0 }
  else if promiseAllSettles rooms then
    { disposalsInvoked := rooms.length, serverClosed := true, outcome := .exit0 }
  else
    { disposalsInvoked := rooms.length, serverClosed := false,
      outcome := .neverReturns }

/- ## Promise combinators for `gracefullyShutdown` -/

/-- The outcome of a promise: fulfilled with a value, rejected with a
reason, or forever pending. -/
inductive POutcome (α : Type) (ε : Type) where
  | fulfilled (a : α)
  | rejected (e : ε)
  | pending
deriving DecidableEq, Repr

/-- `p.then(onFulfilled?, onRejected?)` per the Promise specification:
a missing (`undefined`) `onFulfilled` defaults to the identity reaction
and a missing `onRejected` defaults to the thrower reaction, so the
corresponding settlement passes through unchanged. -/
def promiseThen {α ε : Type} (p : POutcome α ε)
    (onFulfilled : Option (α → POutcome α ε))
    (onRejected : Option (ε → POutcome α ε)) : POutcome α ε :=
  match p with
  | .pending => .pending
  | .fulfilled a =>
    match onFulfilled with
    | some f => f a
    | none => .fulfilled a
  | .rejected e =>
    match onRejected with
    | some g => g e
    | none => .rejected e

/-- `p.catch(onRejected?)` is `p.then(undefined, onRejected?)`. -/
def promiseCatch {α ε : Type} (p : POutcome α ε)
    (onRejected : Option (ε → POutcome α ε)) : POutcome α ε :=
  promiseThen p none onRejected

/-- `Server.gracefullyShutdown = () => this.shutdown().then().catch()`:
both `.then()` and `.catch()` are called with no arguments, over the
outcome of the underlying `shutdown()` promise. -/
def gracefullyShutdown {α ε : Type} (shutdownPromise : POutcome α ε) :
    POutcome α ε :=
  promiseCatch (promiseThen shutdownPromise none none) none

/- ## Helper lemmas -/

/-- `find?` over an appended list tries the left part first. -/
theorem find?_append_eq {β : Type} (l₁ l₂ : List β) (p : β → Bool) :
    (l₁ ++ l₂).find? p = ((l₁.find? p).orElse fun _ => l₂.find? p) := by
  induction l₁ with
  | nil => rfl
  | cons a l ih =>
    cases h : p a <;> simp [List.find?, h, ih]

/-- A room type name occurs in the registry iff `find?` on it succeeds. -/
theorem mem_names_iff_find?_isSome {H O : Type}
    (st : List (AvaiableRoomType H O)) (name : String) :
    name ∈ st.map (fun room => room.name)
      ↔ (st.find? (fun room => room.name == name)).isSome := by
  rw [List.find?_isSome]
  constructor
  · intro h
    obtain ⟨room, hroom, heq⟩ := List.mem_map.mp h
    exact ⟨room, hroom, by simp [heq]⟩
  · rintro ⟨room, hroom, heq⟩
    exact List.mem_map.mpr ⟨room, hroom, beq_iff_eq.mp heq⟩

/-- `registerRoom` is a no-op exactly when the name is already taken. -/
theorem registerRoom_mem_noop {H O : Type} (st : List (AvaiableRoomType H O))
    (roomName : String) (handler : H) (options : Option O)
    (h : roomName ∈ st.map (fun room => room.name)) :
    registerRoom st roomName handler options = st := by
  unfold registerRoom
  have hc : (st.map (fun room => room.name)).contains roomName = true :=
    List.elem_iff.mpr h
  rw [hc]
  simp

/-- When the name is fresh, `registerRoom` appends the new descriptor. -/
theorem registerRoom_not_mem_append {H O : Type} (st : List (AvaiableRoomType H O))
    (roomName : String) (handler : H) (options : Option O)
    (h : roomName ∉ st.map (fun room => room.name)) :
    registerRoom st roomName handler options = st ++ [⟨roomName, handler, options⟩] := by
  unfold registerRoom
  have hc : (st.map (fun room => room.name)).contains roomName = false := by
    cases hc : (st.map (fun room => room.name)).contains roomName
    · rfl
    · exact absurd (List.elem_iff.mp hc) h
  rw [hc]
  simp

/-- One `registerRoom` call preserves distinctness of registered names. -/
theorem registerRoom_names_nodup {H O : Type} (st : List (AvaiableRoomType H O))
    (roomName : String) (handler : H) (options : Option O)
    (h : (st.map (fun room => room.name)).Nodup) :
    ((registerRoom st roomName handler options).map (fun room => room.name)).Nodup := by
  by_cases hm : roomName ∈ st.map (fun room => room.name)
  · rw [registerRoom_mem_noop st roomName handler options hm]; exact h
  · rw [registerRoom_not_mem_append st roomName handler options hm, List.map_append]
    refine List.Nodup.append h (List.nodup_singleton _) ?_
    intro a ha hb
    simp only [List.map_cons, List.map_nil, List.mem_singleton] at hb
    subst hb
    exact hm ha

/-- A register-call sequence keeps names distinct. -/
theorem applyRegisterCalls_names_nodup {H O : Type}
    (calls : List (RegisterCall H O)) (st : List (AvaiableRoomType H O))
    (h : (st.map (fun room => room.name)).Nodup) :
    ((applyRegisterCalls st calls).map (fun room => room.name)).Nodup := by
  induction calls generalizing st with
  | nil => exact h
  | cons c cs ih =>
    exact ih _ (registerRoom_names_nodup st c.name c.handler c.options h)

/-- Looking a name up after a register-call sequence finds the entry the
starting registry already had for it, or else the descriptor of the
first call in the sequence carrying that name. -/
theorem find?_applyRegisterCalls {H O : Type} (calls : List (RegisterCall H O))
    (st : List (AvaiableRoomType H O)) (name : String) :
    (applyRegisterCalls st calls).find? (fun room => room.name == name)
      = ((st.find? (fun room => room.name == name)).orElse fun _ =>
          (calls.find? (fun c => c.name == name)).map RegisterCall.toDescriptor) := by
  induction calls generalizing st with
  | nil => simp [applyRegisterCalls, Option.orElse_none']
  | cons c cs ih =>
    have hstep : applyRegisterCalls st (c :: cs)
        = applyRegisterCalls (registerRoom st c.name c.handler c.options) cs := rfl
    rw [hstep, ih]
    by_cases hm : c.name ∈ st.map (fun room => room.name)
    · rw [registerRoom_mem_noop st c.name c.handler c.options hm]
      cases hcn : (c.name == name)
      · simp [List.find?, hcn]
      · have hname : name ∈ st.map (fun room => room.name) := by
          rwa [beq_iff_eq.mp hcn] at hm
        obtain ⟨v, hv⟩ :=
          Option.isSome_iff_exists.mp ((mem_names_iff_find?_isSome st name).mp hname)
        simp [List.find?, hcn, hv]
    · rw [registerRoom_not_mem_append st c.name c.handler c.options hm,
        find?_append_eq]
      cases hcn : (c.name == name)
      · simp [List.find?, hcn, Option.orElse_none']
      · have hname : name ∉ st.map (fun room => room.name) := by
          rwa [beq_iff_eq.mp hcn] at hm
        have hnone : st.find? (fun room => room.name == name) = none := by
          cases hf : st.find? (fun room => room.name == name)
          · rfl
          · exact absurd ((mem_names_iff_find?_isSome st name).mpr (by simp [hf])) hname
        simp [List.find?, hcn, hnone, RegisterCall.toDescriptor]

/- ## Claim C3 -/

/-- C3: for every sequence of `registerRoom(name, handler, options)`
calls, only the first call for a given name takes effect. A call whose
name is already present in `availableRoomTypes` leaves the registry
unchanged; starting from the empty registry, the registered names stay
pairwise distinct (at most one behavior per room type name) and the
entry found for any name is exactly the descriptor of the first call in
the sequence with that name. -/
theorem registerRoom_first_wins {H O : Type} (calls : List (RegisterCall H O))
    (st : List (AvaiableRoomType H O)) (roomName : String) (handler : H)
    (options : Option O) :
    (roomName ∈ st.map (fun room => room.name) →
        registerRoom st roomName handler options = st)
    ∧ ((applyRegisterCalls [] calls).map (fun room => room.name)).Nodup
    ∧ (∀ name, (applyRegisterCalls [] calls).find? (fun room => room.name == name)
        = (calls.find? (fun c => c.name == name)).map RegisterCall.toDescriptor) := by
  refine ⟨registerRoom_mem_noop st roomName handler options, ?_, ?_⟩
  · exact applyRegisterCalls_names_nodup calls [] List.nodup_nil
  · intro name
    rw [find?_applyRegisterCalls calls [] name]
    rfl

/-- C3 witness: on the concrete sequence registering `"Chat"` twice with
different handlers and then `"Lobby"`, the registry keeps the first
`"Chat"` handler (value `1`), the duplicate call is a no-op, and names
are distinct. -/
theorem registerRoom_first_wins_witness :
    (registerRoom (H := Nat) (O := Nat) [⟨"Chat", 1, none⟩] "Chat" 2 none
        = [⟨"Chat", 1, none⟩])
    ∧ ((applyRegisterCalls (H := Nat) (O := Nat) []
          [⟨"Chat", 1, none⟩, ⟨"Chat", 2, none⟩, ⟨"Lobby", 3, none⟩]).map
            (fun room => room.name)).Nodup
    ∧ (applyRegisterCalls (H := Nat) (O := Nat) []
          [⟨"Chat", 1, none⟩, ⟨"Chat", 2, none⟩, ⟨"Lobby", 3, none⟩]).find?
            (fun room => room.name == "Chat")
        = some ⟨"Chat", 1, none⟩ := by
  obtain ⟨h1, h2, h3⟩ :=
    registerRoom_first_wins (H := Nat) (O := Nat)
      [⟨"Chat", 1, none⟩, ⟨"Chat", 2, none⟩, ⟨"Lobby", 3, none⟩]
      [⟨"Chat", 1, none⟩] "Chat" 2 none
  exact ⟨h1 (by decide), h2, by rw [h3 "Chat"]; decide⟩

/- ## Claim C5 -/

/-- Mapping `roomId` commutes with filtering a given id out. -/
theorem map_roomId_filter {α : Type} (l : List (Room α)) (roomId : String) :
    (l.filter (fun room => room.roomId != roomId)).map (fun room => room.roomId)
      = (l.map (fun room => room.roomId)).filter (fun r => r != roomId) := by
  induction l with
  | nil => rfl
  | cons a l ih =>
    cases h : (a.roomId != roomId) <;>
      simp [List.filter_cons, List.map_cons, h, ih]

/-- Each mutator call preserves the bookkeeping invariant, provided a
`made` call's id is not already live. -/
theorem managedConsistent_applyRoomEvent {α : Type} (st : ManagedState α)
    (ev : RoomEvent α) (hc : managedConsistent st)
    (hv : match ev with
      | .made room => room.roomId ∉ st.managingRoomIds
      | .disposed _ => True) :
    managedConsistent (applyRoomEvent st ev) := by
  obtain ⟨heq, hnd⟩ := hc
  cases ev with
  | made room =>
    refine ⟨?_, ?_⟩
    · simp [applyRoomEvent, onRoomMade, heq]
    · simp only [applyRoomEvent, onRoomMade]
      refine List.Nodup.append hnd (List.nodup_singleton _) ?_
      intro a ha hb
      rw [List.mem_singleton] at hb
      subst hb
      exact hv ha
  | disposed roomId =>
    refine ⟨?_, ?_⟩
    · simp only [applyRoomEvent, onRoomDisposed, map_roomId_filter, heq]
    · exact List.Nodup.filter _ hnd

/-- The invariant carries over any valid mutator-call sequence. -/
theorem managedConsistent_applyRoomEvents {α : Type} (evs : List (RoomEvent α))
    (st : ManagedState α) (hc : managedConsistent st)
    (hv : validRoomEvents st evs = true) :
    managedConsistent (applyRoomEvents st evs) := by
  induction evs generalizing st with
  | nil => exact hc
  | cons ev evs ih =>
    cases ev with
    | made room =>
      have hv2 : ((!(st.managingRoomIds.contains room.roomId))
          && validRoomEvents (applyRoomEvent st (.made room)) evs) = true := hv
      rw [Bool.and_eq_true] at hv2
      have hnm : room.roomId ∉ st.managingRoomIds := by
        intro hmem
        have h1 := hv2.1
        rw [Bool.not_eq_true'] at h1
        have h2 : st.managingRoomIds.contains room.roomId = true :=
          List.elem_iff.mpr hmem
        rw [h2] at h1
        exact Bool.noConfusion h1
      exact ih _ (managedConsistent_applyRoomEvent st (.made room) hc hnm) hv2.2
    | disposed roomId =>
      have hv2 : (true
          && validRoomEvents (applyRoomEvent st (.disposed roomId)) evs) = true := hv
      rw [Bool.true_and] at hv2
      exact ih _ (managedConsistent_applyRoomEvent st (.disposed roomId) hc trivial) hv2

/-- The invariant implies the exact one-to-one correspondence. -/
theorem managedConsistent_exactCorrespondence {α : Type} (st : ManagedState α)
    (hc : managedConsistent st) : exactCorrespondence st := by
  obtain ⟨heq, hnd⟩ := hc
  constructor
  · intro roomId hmem
    have hcount : st.managingRooms.countP (fun room => room.roomId == roomId)
        = (st.managingRooms.map (fun room => room.roomId)).count roomId := by
      rw [List.count_eq_countP, List.countP_map]
      rfl
    rw [hcount, ← heq]
    exact List.count_eq_one_of_mem hnd hmem
  · intro room hroom
    rw [heq]
    exact List.mem_map_of_mem _ hroom

/-- C5: starting from the empty server state, after any sequence of
`onRoomMade` / `onRoomDisposed` calls in which every `onRoomMade` call's
roomId is not currently live, every id in `managingRoomIds` is carried by
exactly one instance in `managingRooms`, and every instance's id is in
`managingRoomIds`. -/
theorem managedRoomSet_exact_correspondence {α : Type}
    (evs : List (RoomEvent α))
    (hv : validRoomEvents (emptyManaged α) evs = true) :
    exactCorrespondence (applyRoomEvents (emptyManaged α) evs) :=
  managedConsistent_exactCorrespondence _
    (managedConsistent_applyRoomEvents evs _ ⟨rfl, List.nodup_nil⟩ hv)

/-- C5 witness: make rooms `"r1"`, `"r2"`, dispose `"r1"`, make `"r1"`
again; the call sequence is valid and the final state's id list and
instance list correspond one-to-one. -/
theorem managedRoomSet_exact_correspondence_witness :
    validRoomEvents (emptyManaged Unit)
        [.made ⟨"r1", ()⟩, .made ⟨"r2", ()⟩, .disposed "r1", .made ⟨"r1", ()⟩]
      = true
    ∧ exactCorrespondence (applyRoomEvents (emptyManaged Unit)
        [.made ⟨"r1", ()⟩, .made ⟨"r2", ()⟩, .disposed "r1", .made ⟨"r1", ()⟩]) :=
  ⟨by decide,
   managedRoomSet_exact_correspondence
     [.made ⟨"r1", ()⟩, .made ⟨"r2", ()⟩, .disposed "r1", .made ⟨"r1", ()⟩]
     (by decide)⟩

/- ## Claim C1 -/

/-- Envelope used in the C1 counterexample: decodable, with `room` the
empty string. -/
def c1Env : Envelope :=
  { client := ⟨"p1"⟩, room := some "", action := "chat", data := none }

/-- C1 counterexample: with `managingRoomIds = [""]` the empty-string
room id is a member of the set, yet the handler produces no local emit
for a decodable envelope addressed to it — the re-emit is not equivalent
to set membership alone, because the guard `data.room && ...` also
requires `room` to be truthy. -/
theorem roomMessage_membership_counterexample :
    ("" ∈ ([""] : List String))
    ∧ bridgeHandle [""] (.newRoomMessage (.ok c1Env)) = .ok none :=
  ⟨List.mem_singleton.mpr rfl, rfl⟩

/-- C1 amended: the handler re-emits the `\x7b client, action, data \x7d`
payload keyed by the envelope's room id if and only if that id is truthy
(present and nonempty) and a member of `managingRoomIds`; in every other
case there is no local emit. -/
theorem roomMessage_emit_iff (managingRoomIds : List String) (env : Envelope) :
    ((roomEmit managingRoomIds env).isSome
      ↔ ∃ r, env.room = some r ∧ r ≠ "" ∧ r ∈ managingRoomIds)
    ∧ (∀ r, env.room = some r → r ≠ "" → r ∈ managingRoomIds →
        bridgeHandle managingRoomIds (.newRoomMessage (.ok env))
          = .ok (some (.room r ⟨env.client, env.action, env.data⟩))) := by
  constructor
  · cases henv : env.room with
    | none => simp [roomEmit, henv]
    | some r =>
      simp only [roomEmit, henv]
      cases hr : (r != "") with
      | false =>
        have : r = "" := by
          rw [bne_eq_false_iff_eq] at hr
          exact hr
        simp [this]
      | true =>
        have hne : r ≠ "" := by
          intro he
          rw [he] at hr
          exact Bool.noConfusion hr
        cases hc : (managingRoomIds.contains r) with
        | false =>
          have hnmem : r ∉ managingRoomIds := by
            intro hmem
            have h2 : managingRoomIds.contains r = true := List.elem_iff.mpr hmem
            rw [h2] at hc
            exact Bool.noConfusion hc
          simp [hr, hc, hne, hnmem]
        | true =>
          have hmem : r ∈ managingRoomIds := List.elem_iff.mp hc
          simp [hr, hc, hne, hmem]
  · intro r hroom hne hmem
    have hc : managingRoomIds.contains r = true := List.elem_iff.mpr hmem
    have hr : (r != "") = true := bne_iff_ne.mpr hne
    simp [bridgeHandle, roomEmit, hroom, hr, hc, hmem]

/-- C1 amended witness: envelope for room `"r1"` with
`managingRoomIds = ["r1"]` is re-emitted with the repackaged payload. -/
theorem roomMessage_emit_iff_witness :
    bridgeHandle ["r1"]
        (.newRoomMessage (.ok ⟨⟨"p2"⟩, some "r1", "say", some "hi"⟩))
      = .ok (some (.room "r1" ⟨⟨"p2"⟩, "say", some "hi"⟩)) :=
  (roomMessage_emit_iff ["r1"] ⟨⟨"p2"⟩, some "r1", "say", some "hi"⟩).2
    "r1" rfl (by decide) (by simp)

/- ## Claim C9 -/

/-- C9: a decodable envelope whose `room` field is falsy (absent/null or
the empty string) is never re-emitted, whatever `managingRoomIds` holds —
including states where the empty string is a member. -/
theorem falsy_room_never_emitted (managingRoomIds : List String)
    (env : Envelope) (h : roomTruthy env.room = false) :
    bridgeHandle managingRoomIds (.newRoomMessage (.ok env)) = .ok none := by
  cases henv : env.room with
  | none => simp [bridgeHandle, roomEmit, henv]
  | some r =>
    have hr : r = "" := by
      rw [henv] at h
      have h2 : (r != "") = false := h
      rwa [bne_eq_false_iff_eq] at h2
    subst hr
    simp [bridgeHandle, roomEmit, henv]

/-- C9 witness: with the empty string a member of `managingRoomIds`, the
empty-string-room envelope still produces no emit. -/
theorem falsy_room_never_emitted_witness :
    roomTruthy (some "") = false
    ∧ ("" ∈ ([""] : List String))
    ∧ bridgeHandle [""]
        (.newRoomMessage (.ok ⟨⟨"p3"⟩, some "", "noop", none⟩)) = .ok none :=
  ⟨rfl, List.mem_singleton.mpr rfl,
   falsy_room_never_emitted [""] ⟨⟨"p3"⟩, some "", "noop", none⟩ rfl⟩

/- ## Claim C7 -/

/-- C7: every player id received on the `PLAYER_LEFT` channel is
re-emitted unchanged on the local `PLAYER_LEFT` key, for every contents
of `managingRoomIds`, without error. -/
theorem playerLeft_reemit_unconditional (managingRoomIds : List String)
    (playerId : String) :
    bridgeHandle managingRoomIds (.playerLeft playerId)
      = .ok (some (.playerLeft playerId)) := rfl

/- ## Claim C4 -/

/-- C4: the `newRoomMessage` handler calls `JSON.parse` with no
try/catch, so an undecodable payload makes the handler terminate with
the parse exception rather than dropping the envelope: the outcome is
`.error`, not `.ok none`, for every `managingRoomIds`. -/
theorem malformed_envelope_raises (managingRoomIds : List String) (e : String) :
    bridgeHandle managingRoomIds (.newRoomMessage (.error e)) = .error e := rfl

/- ## Claim C2 -/

/-- C2: with one managed room whose disposal promise never settles (and
none rejecting), `await Promise.all` never settles, the `finally` block
never runs, and shutdown neither closes the server nor exits — the
disposal hook is invoked, but the bounded wait the claim states does not
exist in the code. -/
theorem shutdown_hangs_on_never_settling_disposal :
    shutdown [.hangs]
      = { disposalsInvoked := 1, serverClosed := false,
          outcome := .neverReturns } := rfl

/- ## Claim C8 -/

/-- C8: shutdown on an empty managed-room set invokes no disposal hook,
closes the server, and exits with code 0 (the early return still runs
the `finally` block). -/
theorem shutdown_empty_immediate :
    shutdown []
      = { disposalsInvoked := 0, serverClosed := true,
          outcome := .exit0 } := rfl

/- ## Claim C6 -/

/-- C6: a rejecting disposal is swallowed — `Promise.all` rejects, the
`catch` absorbs it, and the `finally` still closes the server and exits
with code 0 after invoking every room's disposal hook; on a clean drain
(all disposals resolve) the outcome is likewise exit code 0. -/
theorem shutdown_swallows_disposal_failure (rooms : List DisposeBehavior) :
    (DisposeBehavior.rejects ∈ rooms →
      shutdown rooms
        = { disposalsInvoked := rooms.length, serverClosed := true,
            outcome := .exit0 })
    ∧ ((∀ r ∈ rooms, r = DisposeBehavior.resolves) →
      (shutdown rooms).outcome = .exit0
        ∧ (shutdown rooms).serverClosed = true) := by
  constructor
  · intro hmem
    have hlen : rooms.length ≠ 0 := by
      intro h0
      rw [List.length_eq_zero] at h0
      subst h0
      exact List.not_mem_nil _ hmem
    have hsettle : promiseAllSettles rooms = true := by
      rw [promiseAllSettles, Bool.or_eq_true]
      exact Or.inl (List.elem_iff.mpr hmem)
    rw [shutdown, if_neg hlen, if_pos hsettle]
  · intro hall
    cases rooms with
    | nil => exact ⟨rfl, rfl⟩
    | cons a l =>
      have hlen : (a :: l).length ≠ 0 := by simp
      have hsettle : promiseAllSettles (a :: l) = true := by
        rw [promiseAllSettles, Bool.or_eq_true]
        refine Or.inr (List.all_eq_true.mpr ?_)
        intro x hx
        exact beq_iff_eq.mpr (hall x hx)
      rw [shutdown, if_neg hlen, if_pos hsettle]
      exact ⟨rfl, rfl⟩

/-- C6 witness: one resolving and one rejecting disposal still yield a
closed server and exit code 0, with both hooks invoked; a lone resolving
disposal drains cleanly with exit code 0. -/
theorem shutdown_swallows_disposal_failure_witness :
    (DisposeBehavior.rejects
        ∈ [DisposeBehavior.resolves, DisposeBehavior.rejects])
    ∧ shutdown [.resolves, .rejects]
        = { disposalsInvoked := 2, serverClosed := true, outcome := .exit0 }
    ∧ (shutdown [DisposeBehavior.resolves]).outcome = .exit0 :=
  ⟨by decide,
   (shutdown_swallows_disposal_failure [.resolves, .rejects]).1 (by decide),
   ((shutdown_swallows_disposal_failure [.resolves]).2 (by decide)).1⟩

/- ## Claim C10 -/

/-- C10 counterexample: `.catch()` invoked with no argument installs no
rejection handler, so when the underlying `shutdown()` promise rejects,
the promise `gracefullyShutdown` returns rejects with the same reason —
it is not the case that it never rejects. -/
theorem gracefullyShutdown_rejects_counterexample :
    gracefullyShutdown (POutcome.rejected "DisposalError" : POutcome Unit String)
      = POutcome.rejected "DisposalError" := rfl

/-- C10 amended: `gracefullyShutdown` never throws synchronously (it is
a total function of the underlying promise's outcome), and the promise
it returns settles exactly as `shutdown()`'s does — fulfillment,
rejection and pending all pass through `.then()`/`.catch()` unchanged,
because with no arguments they install only the default identity and
rethrow reactions. -/
theorem gracefullyShutdown_transparent {α ε : Type} (p : POutcome α ε) :
    gracefullyShutdown p = p := by
  cases p <;> rfl

end Blueboat
